import Mathlib

/-!
Shallow embedding of `src/ai/models/porygon_model/predictor.py` from the
`pokemon-ai` repository, together with theorems checking the repository's
specification against it.

Numeric values (Python floats) are modelled as rationals `ℚ`; Python
runtime faults (`ZeroDivisionError`, `IndexError`, `KeyError`,
`ValueError`) are modelled with an `Except` error monad so that the
functions are total and executable.
-/

namespace PorygonPredictor

/-- Python runtime faults that the translated code can raise. -/
inductive PyErr where
  | zeroDivisionError
  | indexError
  | keyError
  | valueError
deriving DecidableEq, Repr

/-- Modelled from the spec: a Move has current power-points (PP) and
base/maximum PP (`Move.get_pp`, `Move.get_base_pp` of `src.classes`,
which is not under `src/`). -/
structure Move where
  pp : ℚ
  base_pp : ℚ
deriving DecidableEq, Repr

/-- Modelled from the spec: a Pokémon has a unique identifier, a current
hit-point value, a base hit-point value and a move bank of at most
`POKEMON_MOVE_LIMIT` moves, exposed as a list in native order
(`Pokemon.get_id`, `get_hp`, `get_base_hp`, `get_move_bank().get_as_list()`
of `src.classes`, which is not under `src/`). -/
structure Pokemon where
  id : ℕ
  hp : ℚ
  base_hp : ℚ
  moves : List Move
deriving DecidableEq, Repr

/-- Modelled from the spec: a Player owns a Party.  `party` is the party's
as-is (battle-order) list (`get_party().get_as_list()`), and `starting`
is the currently active Pokémon (`get_party().get_starting()`); both
accessors belong to `src.classes`, which is not under `src/`. -/
structure Player where
  party : List Pokemon
  starting : Pokemon
deriving DecidableEq, Repr

/-- `MonteCarloActionType` from `.mcts` (not under `src/`): the two action
kinds the predictor distinguishes. -/
inductive MonteCarloActionType where
  | ATTACK
  | SWITCH
deriving DecidableEq, Repr

/-- Modelled from the spec: a child of the search root carries an
action-kind tag, a scalar outcome, and a mechanism to resolve which party
slot / move slot / Pokémon it represents.  `idx` is the resolved slot
(the party's as-is slot for SWITCH, the move slot for ATTACK; in the
source it is read from `node.childrenMap[child.token][...]`), and
`pkmn_id` is the owning Pokémon's identifier (`child.detokenize_child()`).
The `MonteCarloNode` class lives in `.mcts`, which is not under `src/`. -/
structure MonteCarloChild where
  action_type : MonteCarloActionType
  outcome : ℚ
  idx : ℕ
  pkmn_id : ℕ
deriving DecidableEq, Repr

/-- Modelled from the spec: the search root, with its own aggregate
outcome and its children. -/
structure MonteCarloNode where
  outcome : ℚ
  children : List MonteCarloChild
deriving DecidableEq, Repr

/-- `POKEMON_MOVE_LIMIT` from `src.utils.config` (reference configuration). -/
def POKEMON_MOVE_LIMIT : ℕ := 4

/-- `POKEMON_PARTY_LIMIT` from `src.utils.config` (reference configuration). -/
def POKEMON_PARTY_LIMIT : ℕ := 6

/-- `EPSILON = 1e-16` of `predictor.py`: very small value used in place of
zero to avoid neural-net training issues. -/
def EPSILON : ℚ := 1 / 10 ^ 16

/-- Canonical party order on Pokémon: ascending identifier. -/
def pkmnLe (p q : Pokemon) : Prop := p.id ≤ q.id

instance : DecidableRel pkmnLe := fun p q => inferInstanceAs (Decidable (p.id ≤ q.id))

instance : IsTotal Pokemon pkmnLe := ⟨fun p q => Nat.le_total p.id q.id⟩

instance : IsTrans Pokemon pkmnLe := ⟨fun _ _ _ h h' => Nat.le_trans h h'⟩

/-- Order on (switch probability, Pokémon) tuples used by
`make_actual_output_list`: Python sorts them with
`key=lambda v: v[1].get_id()`. -/
def tupLe (a b : ℚ × Pokemon) : Prop := a.2.id ≤ b.2.id

instance : DecidableRel tupLe := fun a b => inferInstanceAs (Decidable (a.2.id ≤ b.2.id))

instance : IsTotal (ℚ × Pokemon) tupLe := ⟨fun a b => Nat.le_total a.2.id b.2.id⟩

instance : IsTrans (ℚ × Pokemon) tupLe := ⟨fun _ _ _ h h' => Nat.le_trans h h'⟩

/-- Modelled from the spec: `Party.get_sorted_list` (from `src.classes`,
not under `src/`) returns the party sorted by Pokémon identifier,
ascending. -/
def get_sorted_list (party : List Pokemon) : List Pokemon :=
  party.insertionSort pkmnLe

/-- One PP-ratio component of a row (`move.get_pp() / move.get_base_pp()`);
division by a zero base stat is a Python `ZeroDivisionError`. -/
def move_comp (move : Move) : Except PyErr ℚ :=
  if move.base_pp = 0 then .error .zeroDivisionError
  else .ok (move.pp / move.base_pp)

/-- The move-component loop of `fill_rows`, in source order. -/
def move_comps_loop : List Move → Except PyErr (List ℚ)
  | [] => .ok []
  | move :: rest =>
    (move_comp move).bind fun c =>
    (move_comps_loop rest).bind fun cs =>
    .ok (c :: cs)

/-- One row of the input matrix for one Pokémon (`fill_rows` loop body of
`make_input_matrix`): HP ratio, PP ratio per move in native order, then
`EPSILON` padding up to `POKEMON_MOVE_LIMIT` move slots. -/
def pokemon_row (pkmn : Pokemon) : Except PyErr (List ℚ) :=
  if pkmn.base_hp = 0 then .error .zeroDivisionError
  else
    (move_comps_loop pkmn.moves).bind fun move_comps =>
    .ok (pkmn.hp / pkmn.base_hp ::
      (move_comps ++ List.replicate (POKEMON_MOVE_LIMIT - pkmn.moves.length) EPSILON))

/-- `fill_rows` of `make_input_matrix`: one row per Pokémon of the list. -/
def fill_rows : List Pokemon → Except PyErr (List (List ℚ))
  | [] => .ok []
  | pkmn :: rest =>
    (pokemon_row pkmn).bind fun row =>
    (fill_rows rest).bind fun rows =>
    .ok (row :: rows)

/-- `fill_empty` of `make_input_matrix` appends rows of five `EPSILON`
entries (the row width is hard-coded as five entries in the source). -/
def empty_row : List ℚ := [EPSILON, EPSILON, EPSILON, EPSILON, EPSILON]

/-- `make_input_matrix(player, other_player)` of `predictor.py`
(the spec's `encode_state`). -/
def make_input_matrix (player other_player : Player) : Except PyErr (List (List ℚ)) :=
  let player_pokemon := get_sorted_list player.party
  let other_player_pokemon := get_sorted_list other_player.party
  (fill_rows player_pokemon).bind fun rows1 =>
  (fill_rows other_player_pokemon).bind fun rows2 =>
  .ok (rows1 ++ List.replicate (POKEMON_PARTY_LIMIT - player_pokemon.length) empty_row
    ++ rows2 ++ List.replicate (POKEMON_PARTY_LIMIT - other_player_pokemon.length) empty_row)

/-- The first loop of `make_actual_output_list`: for each SWITCH child,
`switch_probs[switch_idx] = child.outcome / node.outcome`.  The right
hand side is evaluated first in Python, so a zero root outcome raises
`ZeroDivisionError` before an out-of-range slot raises `IndexError`. -/
def switch_loop (root_outcome : ℚ) : List MonteCarloChild → List ℚ → Except PyErr (List ℚ)
  | [], acc => .ok acc
  | child :: rest, acc =>
    if child.action_type = MonteCarloActionType.SWITCH then
      if root_outcome = 0 then .error .zeroDivisionError
      else if child.idx < acc.length then
        switch_loop root_outcome rest (acc.set child.idx (child.outcome / root_outcome))
      else .error .indexError
    else switch_loop root_outcome rest acc

/-- The second loop of `make_actual_output_list`: builds
`pkmn_id_to_move_prob_map` (a Python dict, modelled as a function to
`Option`), defaulting each newly seen Pokémon id to a
`POKEMON_MOVE_LIMIT`-long list of `EPSILON` and then writing
`child.outcome / node.outcome` at the child's move slot. -/
def attack_loop (root_outcome : ℚ) :
    List MonteCarloChild → (ℕ → Option (List ℚ)) → Except PyErr (ℕ → Option (List ℚ))
  | [], acc => .ok acc
  | child :: rest, acc =>
    if child.action_type = MonteCarloActionType.ATTACK then
      if root_outcome = 0 then .error .zeroDivisionError
      else
        let cur := (acc child.pkmn_id).getD (List.replicate POKEMON_MOVE_LIMIT EPSILON)
        if child.idx < cur.length then
          attack_loop root_outcome rest
            (fun k => if k = child.pkmn_id
              then some (cur.set child.idx (child.outcome / root_outcome))
              else acc k)
        else .error .indexError
    else attack_loop root_outcome rest acc

/-- The third loop of `make_actual_output_list`: traverses the sorted
party and concatenates `pkmn_id_to_move_prob_map[pkmn.get_id()]` for each
member; a Pokémon id absent from the dict raises `KeyError`. -/
def move_flatten (move_map : ℕ → Option (List ℚ)) :
    List Pokemon → List ℚ → Except PyErr (List ℚ)
  | [], acc => .ok acc
  | pkmn :: rest, acc =>
    match move_map pkmn.id with
    | none => .error .keyError
    | some probs => move_flatten move_map rest (acc ++ probs)

/-- `make_actual_output_list(player, node)` of `predictor.py`
(the spec's `encode_target`). -/
def make_actual_output_list (player : Player) (node : MonteCarloNode) :
    Except PyErr (List ℚ) :=
  let player_pokemon := player.party
  (switch_loop node.outcome node.children
      (List.replicate player_pokemon.length EPSILON)).bind fun switch_probs =>
  let pokemon_switch_tuple := switch_probs.zip player_pokemon
  let sorted_tuple := pokemon_switch_tuple.insertionSort tupLe
  let switch_probs2 := sorted_tuple.map Prod.fst
    ++ List.replicate (POKEMON_PARTY_LIMIT - player_pokemon.length) EPSILON
  (attack_loop node.outcome node.children (fun _ => none)).bind fun move_map =>
  (move_flatten move_map (get_sorted_list player_pokemon) []).bind fun move_probs =>
  .ok (switch_probs2 ++ move_probs ++ [node.outcome])

/-- `np.dot` on two equally long 1-D arrays. -/
def np_dot (v w : List ℚ) : ℚ := (List.zipWith (· * ·) v w).sum

/-- `calculate_loss(game_output, output)` of `predictor.py` (the spec's
`loss`), parametric in the elementwise logarithm `lg` applied by
`np.log`.  `output[-1]` on an empty vector is a Python `IndexError`. -/
def calculate_loss (lg : ℚ → ℚ) (game_output output : List ℚ) : Except PyErr ℚ :=
  match output.getLast?, game_output.getLast? with
  | some predicted_outcome, some game_outcome =>
    .ok ((game_outcome - predicted_outcome) ^ 2
      + np_dot output.dropLast (game_output.dropLast.map lg))
  | _, _ => .error .indexError

/-- Python's `max` over a list of rationals: `ValueError` on an empty
list, otherwise the left fold that keeps the current value unless a
strictly greater one appears (so the first maximum wins). -/
def py_max : List ℚ → Except PyErr ℚ
  | [] => .error .valueError
  | x :: xs => .ok (xs.foldl (fun a b => if b > a then b else a) x)

/-- Python's `list.index`: index of the first occurrence. -/
def py_index (l : List ℚ) (x : ℚ) : ℕ := l.findIdx (fun y => y = x)

/-- The one callback invocation `predict_move` binds into the returned
model: `do_move(attack)` or `switch_pokemon(idx)`. -/
inductive TurnAction where
  | do_move (attack : Move)
  | switch_pokemon (idx : ℕ)
deriving DecidableEq, Repr

/-- `predict_move(model, player, other_player)` of `predictor.py` (the
spec's `decode_action`), with the external model's raw output vector
passed in directly in place of `model.predict(...)`. -/
def predict_move (output : List ℚ) (player : Player) : Except PyErr TurnAction :=
  let current_pokemon_id := player.starting.id
  let sorted := get_sorted_list player.party
  let current_pokemon_idx := sorted.findIdx (fun pokemon => pokemon.id = current_pokemon_id)
  let move_probs :=
    if current_pokemon_idx < sorted.length then
      (output.drop (POKEMON_PARTY_LIMIT + current_pokemon_idx * POKEMON_MOVE_LIMIT)).take
        POKEMON_MOVE_LIMIT
    else []
  let switch_probs := output.take POKEMON_PARTY_LIMIT
  (py_max move_probs).bind fun highest_move_prob =>
  (py_max switch_probs).bind fun highest_switch_prob =>
  if highest_move_prob ≥ highest_switch_prob then
    let highest_move_idx := py_index move_probs highest_move_prob
    let bank := player.starting.moves
    if h : highest_move_idx < bank.length then
      .ok (TurnAction.do_move (bank.get ⟨highest_move_idx, h⟩))
    else .error .indexError
  else
    .ok (TurnAction.switch_pokemon (py_index switch_probs highest_switch_prob))

/-- The probability that `make_actual_output_list` records for as-is
party slot `i` of the switch segment before re-sorting: the last SWITCH
child of the root targeting slot `i` wins (Python assignment semantics),
and a slot no SWITCH child targets keeps its `EPSILON` default. -/
def lastSwitchVal (node : MonteCarloNode) (i : ℕ) : ℚ :=
  ((node.children.filter fun c =>
      decide (c.action_type = MonteCarloActionType.SWITCH) && decide (c.idx = i)).getLast?).elim
    EPSILON (fun c => c.outcome / node.outcome)

/-! ### Concrete test data -/

/-- A move with 10 of 20 PP. -/
def exMove : Move := ⟨10, 20⟩

/-- A Pokémon with identifier 1, 5 of 10 HP and one move. -/
def exPkmn : Pokemon := ⟨1, 5, 10, [exMove]⟩

/-- A second Pokémon with identifier 2 and one move. -/
def exPkmn2 : Pokemon := ⟨2, 5, 10, [exMove]⟩

/-- A one-Pokémon player whose active Pokémon is its only party member. -/
def exPlayer : Player := ⟨[exPkmn], exPkmn⟩

/-- A two-Pokémon player (identifiers 1 and 2). -/
def exPlayer2 : Player := ⟨[exPkmn, exPkmn2], exPkmn⟩

/-- A completed search root with outcome 1 and one ATTACK child for the
Pokémon with identifier 1 (move slot 0, child outcome 1). -/
def exNode : MonteCarloNode := ⟨1, [⟨.ATTACK, 1, 0, 1⟩]⟩

/-- The vector the code actually produces for `exPlayer`/`exNode`:
six switch entries, one four-entry move block for the single party
member, and the trailing outcome — 11 entries, not 31. -/
def c1_out : List ℚ :=
  [EPSILON, EPSILON, EPSILON, EPSILON, EPSILON, EPSILON, 1, EPSILON, EPSILON, EPSILON, 1]

/-- A Pokémon with 0 current HP and no moves. -/
def c4_pokemon : Pokemon := ⟨1, 0, 10, []⟩

/-- A player whose only Pokémon is at 0 current HP. -/
def c4_player : Player := ⟨[c4_pokemon], c4_pokemon⟩

/-- The matrix the code produces for `c4_player` against itself: the HP
ratio of the fainted Pokémon is exactly zero. -/
def c4_matrix : List (List ℚ) :=
  ((0 : ℚ) :: [EPSILON, EPSILON, EPSILON, EPSILON]) :: (List.replicate 5 empty_row
    ++ (((0 : ℚ) :: [EPSILON, EPSILON, EPSILON, EPSILON]) :: List.replicate 5 empty_row))

/-- A player whose recorded active Pokémon (identifier 2) does not occur
in its party (which only holds identifier 1). -/
def c7_player : Player := ⟨[exPkmn], exPkmn2⟩

/-- An output vector whose move block for the active Pokémon peaks at
move slot 3, a padding slot beyond the one-move bank of `exPkmn`. -/
def c10_out : List ℚ :=
  List.replicate POKEMON_PARTY_LIMIT (0 : ℚ) ++ [0, 0, 0, 5] ++ List.replicate 21 (0 : ℚ)

/-- An output vector of length 31 whose move block for the active Pokémon
peaks at move slot 0 with value 1, every other entry 0. -/
def c8_out : List ℚ :=
  List.replicate POKEMON_PARTY_LIMIT (0 : ℚ) ++ [1, 0, 0, 0] ++ List.replicate 21 (0 : ℚ)

end PorygonPredictor

namespace PorygonPredictor

/-- A player whose as-is party order ([id 2, id 1]) differs from sorted
order ([id 1, id 2]). -/
def w2_player : Player := ⟨[exPkmn2, exPkmn], exPkmn⟩

/-- A completed search root for `w2_player`: one SWITCH child targeting
as-is slot 0 (the Pokémon with id 2) and one ATTACK child per party
member. -/
def w2_node : MonteCarloNode :=
  ⟨1, [⟨MonteCarloActionType.SWITCH, 1/2, 0, 0⟩,
       ⟨MonteCarloActionType.ATTACK, 1/4, 0, 2⟩,
       ⟨MonteCarloActionType.ATTACK, 1/4, 0, 1⟩]⟩

/-! ### Claim theorems -/

/-- C1: the spec claims `encode_target` always returns a vector of length
`POKEMON_PARTY_LIMIT + POKEMON_PARTY_LIMIT×POKEMON_MOVE_LIMIT + 1 = 31`
regardless of the live party size.  The code does not pad the move
segment for absent party members: for a live party of one Pokémon it
returns `6 + 4·1 + 1 = 11` entries, contradicting the function's own
docstring (`:return: A list of output values of length OUTPUT_SIZE (31)`)
and the fixed `OUTPUT_SIZE` of the network. -/
theorem C1_short_party_wrong_length :
    make_actual_output_list exPlayer exNode = Except.ok c1_out ∧
    c1_out.length = 11 ∧
    c1_out.length ≠ POKEMON_PARTY_LIMIT + POKEMON_PARTY_LIMIT * POKEMON_MOVE_LIMIT + 1 := by
  refine ⟨?_, by rfl, by decide⟩
  simp [make_actual_output_list, exPlayer, exNode, exPkmn, exMove, switch_loop, attack_loop,
    move_flatten, get_sorted_list, c1_out, List.insertionSort, List.orderedInsert,
    Except.bind, List.replicate]

/-- C5: the spec claims a party Pokémon with no corresponding ATTACK
child gets a full `EPSILON` block and the call completes normally.  The
code instead looks the Pokémon's id up in `pkmn_id_to_move_prob_map`
without a default, raising `KeyError`: here the party member with
identifier 2 has no ATTACK child. -/
theorem C5_missing_attack_child_key_fault :
    make_actual_output_list exPlayer2 exNode = Except.error PyErr.keyError := rfl

/-- C6: the spec claims a root outcome of exactly zero is guarded and
every probability slot is filled with `EPSILON`.  The code divides by
`node.outcome` unguarded, so a zero root outcome with a SWITCH child
raises `ZeroDivisionError`. -/
theorem C6_zero_root_outcome_division_fault :
    make_actual_output_list exPlayer ⟨0, [⟨MonteCarloActionType.SWITCH, 1, 0, 1⟩]⟩ =
      Except.error PyErr.zeroDivisionError := rfl

/-- C7: the spec claims that when the active Pokémon is not found in the
sorted party the move slice is treated as empty and the switch callback
still fires.  The code does set the slice to `[]`, but then calls
Python's `max` on that empty list, which raises `ValueError` before any
callback can be chosen. -/
theorem C7_missing_active_pokemon_value_fault :
    predict_move (List.replicate 31 EPSILON) c7_player = Except.error PyErr.valueError := rfl

/-- C10: in the attack branch the argmax index inside the
`POKEMON_MOVE_LIMIT`-wide move block indexes the active Pokémon's move
bank directly; with a one-move bank and the block maximum at padding
slot 3, the lookup is out of range (`IndexError`) and no callback is
invoked. -/
theorem C10_padding_argmax_out_of_range :
    predict_move c10_out exPlayer = Except.error PyErr.indexError := rfl

/-- C4 counterexample: the claim says no entry of the matrix is exactly
zero for any HP and PP values.  A Pokémon at 0 current HP produces an HP
ratio of exactly `0 / base = 0`. -/
theorem C4_zero_hp_entry_counterexample :
    make_input_matrix c4_player c4_player = Except.ok c4_matrix ∧
    (0 : ℚ) ∈ c4_matrix.getD 0 [] := by
  refine ⟨?_, by decide⟩
  simp [make_input_matrix, c4_player, c4_pokemon, c4_matrix, fill_rows, pokemon_row,
    move_comps_loop, get_sorted_list, List.insertionSort, List.orderedInsert,
    Except.bind, List.replicate, empty_row]

end PorygonPredictor

namespace PorygonPredictor

lemma EPSILON_pos : 0 < EPSILON := by norm_num [EPSILON]

lemma length_get_sorted_list (l : List Pokemon) : (get_sorted_list l).length = l.length :=
  List.length_insertionSort pkmnLe l

lemma mem_get_sorted_list {p : Pokemon} {l : List Pokemon} :
    p ∈ get_sorted_list l ↔ p ∈ l :=
  List.mem_insertionSort pkmnLe

lemma move_comps_loop_ok (moves : List Move) (h : ∀ mv ∈ moves, mv.base_pp ≠ 0) :
    ∃ cs, move_comps_loop moves = Except.ok cs ∧ cs.length = moves.length ∧
      ∀ c ∈ cs, ∃ mv ∈ moves, c = mv.pp / mv.base_pp := by
  induction moves with
  | nil => exact ⟨[], rfl, rfl, by simp⟩
  | cons mv rest ih =>
    obtain ⟨cs, hcs, hlen, hmem⟩ := ih (fun m hm => h m (List.mem_cons_of_mem _ hm))
    refine ⟨mv.pp / mv.base_pp :: cs, ?_, by simp [hlen], ?_⟩
    · simp [move_comps_loop, move_comp, if_neg (h mv (List.mem_cons_self _ _)), hcs,
        Except.bind]
    · intro c hc
      rcases List.mem_cons.mp hc with rfl | hc
      · exact ⟨mv, List.mem_cons_self _ _, rfl⟩
      · obtain ⟨m, hm, he⟩ := hmem c hc
        exact ⟨m, List.mem_cons_of_mem _ hm, he⟩

lemma pokemon_row_ok (pkmn : Pokemon) (hb : pkmn.base_hp ≠ 0)
    (hm : ∀ mv ∈ pkmn.moves, mv.base_pp ≠ 0) :
    ∃ row, pokemon_row pkmn = Except.ok row ∧
      row.length = 1 + pkmn.moves.length + (POKEMON_MOVE_LIMIT - pkmn.moves.length) ∧
      ∀ x ∈ row, x = pkmn.hp / pkmn.base_hp ∨
        (∃ mv ∈ pkmn.moves, x = mv.pp / mv.base_pp) ∨ x = EPSILON := by
  obtain ⟨cs, hcs, hlen, hmem⟩ := move_comps_loop_ok pkmn.moves hm
  refine ⟨pkmn.hp / pkmn.base_hp ::
    (cs ++ List.replicate (POKEMON_MOVE_LIMIT - pkmn.moves.length) EPSILON), ?_, ?_, ?_⟩
  · simp [pokemon_row, if_neg hb, hcs, Except.bind]
  · simp [hlen]; omega
  · intro x hx
    rcases List.mem_cons.mp hx with rfl | hx
    · exact Or.inl rfl
    · rcases List.mem_append.mp hx with hx | hx
      · exact Or.inr (Or.inl (hmem x hx))
      · exact Or.inr (Or.inr (List.eq_of_mem_replicate hx))

lemma fill_rows_ok (l : List Pokemon)
    (hb : ∀ pk ∈ l, pk.base_hp ≠ 0 ∧ ∀ mv ∈ pk.moves, mv.base_pp ≠ 0) :
    ∃ rows, fill_rows l = Except.ok rows ∧ rows.length = l.length ∧
      ∀ row ∈ rows, ∃ pk ∈ l, pokemon_row pk = Except.ok row := by
  induction l with
  | nil => exact ⟨[], rfl, rfl, by simp⟩
  | cons pk rest ih =>
    obtain ⟨rows, hrows, hlen, hmem⟩ := ih (fun p hp => hb p (List.mem_cons_of_mem _ hp))
    obtain ⟨row, hrow, -, -⟩ :=
      pokemon_row_ok pk (hb pk (List.mem_cons_self _ _)).1 (hb pk (List.mem_cons_self _ _)).2
    refine ⟨row :: rows, ?_, by simp [hlen], ?_⟩
    · simp [fill_rows, hrow, hrows, Except.bind]
    · intro r hr
      rcases List.mem_cons.mp hr with rfl | hr
      · exact ⟨pk, List.mem_cons_self _ _, hrow⟩
      · obtain ⟨p, hp, he⟩ := hmem r hr
        exact ⟨p, List.mem_cons_of_mem _ hp, he⟩

/-- C3: for parties of size at most `POKEMON_PARTY_LIMIT` whose move banks
hold at most `POKEMON_MOVE_LIMIT` moves (and whose base stats are nonzero,
as the data model requires), `make_input_matrix` returns a matrix of
exactly `2×POKEMON_PARTY_LIMIT` rows, each of exactly
`1+POKEMON_MOVE_LIMIT` entries. -/
theorem C3_state_matrix_shape (player other_player : Player)
    (hp1 : player.party.length ≤ POKEMON_PARTY_LIMIT)
    (hp2 : other_player.party.length ≤ POKEMON_PARTY_LIMIT)
    (hmv : ∀ pk ∈ player.party ++ other_player.party,
      pk.moves.length ≤ POKEMON_MOVE_LIMIT)
    (hbase : ∀ pk ∈ player.party ++ other_player.party,
      pk.base_hp ≠ 0 ∧ ∀ mv ∈ pk.moves, mv.base_pp ≠ 0) :
    ∃ mat, make_input_matrix player other_player = Except.ok mat ∧
      mat.length = 2 * POKEMON_PARTY_LIMIT ∧
      ∀ row ∈ mat, row.length = 1 + POKEMON_MOVE_LIMIT := by
  obtain ⟨rows1, hr1, hl1, hm1⟩ := fill_rows_ok (get_sorted_list player.party)
    (fun p hp => hbase p (List.mem_append_left _ (mem_get_sorted_list.mp hp)))
  obtain ⟨rows2, hr2, hl2, hm2⟩ := fill_rows_ok (get_sorted_list other_player.party)
    (fun p hp => hbase p (List.mem_append_right _ (mem_get_sorted_list.mp hp)))
  have hmat : make_input_matrix player other_player = Except.ok
      (rows1 ++ List.replicate (POKEMON_PARTY_LIMIT - (get_sorted_list player.party).length) empty_row
        ++ rows2 ++ List.replicate (POKEMON_PARTY_LIMIT - (get_sorted_list other_player.party).length) empty_row) := by
    simp [make_input_matrix, hr1, hr2, Except.bind]
  refine ⟨_, hmat, ?_, ?_⟩
  · simp [hl1, hl2, length_get_sorted_list]
    omega
  · intro row hrow
    have hrowlen : ∀ pk ∈ player.party ++ other_player.party,
        pokemon_row pk = Except.ok row → row.length = 1 + POKEMON_MOVE_LIMIT := by
      intro pk hpk hr
      obtain ⟨row', hrow', hlen', -⟩ :=
        pokemon_row_ok pk (hbase pk hpk).1 (hbase pk hpk).2
      rw [hr] at hrow'
      cases hrow'
      have := hmv pk hpk
      omega
    rcases List.mem_append.mp hrow with h | h
    · rcases List.mem_append.mp h with h | h
      · rcases List.mem_append.mp h with h | h
        · obtain ⟨pk, hpk, he⟩ := hm1 row h
          exact hrowlen pk (List.mem_append_left _ (mem_get_sorted_list.mp hpk)) he
        · rw [List.eq_of_mem_replicate h]
          decide
      · obtain ⟨pk, hpk, he⟩ := hm2 row h
        exact hrowlen pk (List.mem_append_right _ (mem_get_sorted_list.mp hpk)) he
    · rw [List.eq_of_mem_replicate h]
      decide

/-- C3 witness: two empty parties. -/
theorem C3_state_matrix_shape_witness :
    ∃ mat, make_input_matrix ⟨[], exPkmn⟩ ⟨[], exPkmn⟩ = Except.ok mat ∧
      mat.length = 2 * POKEMON_PARTY_LIMIT ∧
      ∀ row ∈ mat, row.length = 1 + POKEMON_MOVE_LIMIT :=
  C3_state_matrix_shape ⟨[], exPkmn⟩ ⟨[], exPkmn⟩ (by decide) (by decide)
    (by intro pk hpk; cases hpk) (by intro pk hpk; cases hpk)

/-- C4 (amended): matrix entries are never exactly zero provided every
party Pokémon has strictly positive current and base HP and every move
strictly positive current and base PP; without that proviso a fainted
Pokémon (0 HP) or an exhausted move (0 PP) yields an exactly-zero entry,
as `C4_zero_hp_entry_counterexample` shows. -/
theorem C4_positive_stats_no_zero_entry (player other_player : Player)
    (hpos : ∀ pk ∈ player.party ++ other_player.party,
      0 < pk.hp ∧ 0 < pk.base_hp ∧ ∀ mv ∈ pk.moves, 0 < mv.pp ∧ 0 < mv.base_pp) :
    ∃ mat, make_input_matrix player other_player = Except.ok mat ∧
      ∀ row ∈ mat, ∀ x ∈ row, x ≠ 0 := by
  obtain ⟨rows1, hr1, hl1, hm1⟩ := fill_rows_ok (get_sorted_list player.party)
    (fun p hp => by
      have h := hpos p (List.mem_append_left _ (mem_get_sorted_list.mp hp))
      exact ⟨ne_of_gt h.2.1, fun mv hmv => ne_of_gt (h.2.2 mv hmv).2⟩)
  obtain ⟨rows2, hr2, hl2, hm2⟩ := fill_rows_ok (get_sorted_list other_player.party)
    (fun p hp => by
      have h := hpos p (List.mem_append_right _ (mem_get_sorted_list.mp hp))
      exact ⟨ne_of_gt h.2.1, fun mv hmv => ne_of_gt (h.2.2 mv hmv).2⟩)
  have hmat : make_input_matrix player other_player = Except.ok
      (rows1 ++ List.replicate (POKEMON_PARTY_LIMIT - (get_sorted_list player.party).length) empty_row
        ++ rows2 ++ List.replicate (POKEMON_PARTY_LIMIT - (get_sorted_list other_player.party).length) empty_row) := by
    simp [make_input_matrix, hr1, hr2, Except.bind]
  refine ⟨_, hmat, ?_⟩
  have hrowpos : ∀ pk ∈ player.party ++ other_player.party, ∀ row,
      pokemon_row pk = Except.ok row → ∀ x ∈ row, x ≠ 0 := by
    intro pk hpk row hr x hx
    obtain ⟨hhp, hbase, hmv⟩ := hpos pk hpk
    obtain ⟨row2, hrow2, -, hchar⟩ := pokemon_row_ok pk (ne_of_gt hbase)
      (fun mv h => ne_of_gt (hmv mv h).2)
    rw [hr] at hrow2
    cases hrow2
    rcases hchar x hx with h | ⟨mv, hmvmem, h⟩ | h
    · rw [h]; exact ne_of_gt (div_pos hhp hbase)
    · rw [h]; exact ne_of_gt (div_pos (hmv mv hmvmem).1 (hmv mv hmvmem).2)
    · rw [h]; exact ne_of_gt EPSILON_pos
  have hempty : ∀ x ∈ empty_row, x ≠ 0 := by
    intro x hx
    simp [empty_row] at hx
    rw [hx]
    exact ne_of_gt EPSILON_pos
  intro row hrow x hx
  rcases List.mem_append.mp hrow with h | h
  · rcases List.mem_append.mp h with h | h
    · rcases List.mem_append.mp h with h | h
      · obtain ⟨pk, hpk, he⟩ := hm1 row h
        exact hrowpos pk (List.mem_append_left _ (mem_get_sorted_list.mp hpk)) row he x hx
      · rw [List.eq_of_mem_replicate h] at hx
        exact hempty x hx
    · obtain ⟨pk, hpk, he⟩ := hm2 row h
      exact hrowpos pk (List.mem_append_right _ (mem_get_sorted_list.mp hpk)) row he x hx
  · rw [List.eq_of_mem_replicate h] at hx
    exact hempty x hx

/-- C4 (amended) witness: one healthy Pokémon on each side. -/
theorem C4_positive_stats_no_zero_entry_witness :
    ∃ mat, make_input_matrix exPlayer exPlayer = Except.ok mat ∧
      ∀ row ∈ mat, ∀ x ∈ row, x ≠ 0 :=
  C4_positive_stats_no_zero_entry exPlayer exPlayer (by decide)

lemma np_dot_eq_sum (v w : List ℚ) :
    np_dot v w = ∑ i ∈ Finset.range (min v.length w.length), v.getD i 0 * w.getD i 0 := by
  induction v generalizing w with
  | nil => simp [np_dot]
  | cons a v ih =>
    cases w with
    | nil => simp [np_dot]
    | cons b w =>
      have h1 : np_dot (a :: v) (b :: w) = a * b + np_dot v w := by
        simp [np_dot]
      have h2 : min (a :: v).length (b :: w).length = min v.length w.length + 1 := by
        simp
        omega
      rw [h1]
      rw [ih]
      rw [h2]
      rw [Finset.sum_range_succ'
        (fun i => (a :: v).getD i 0 * (b :: w).getD i 0) (min v.length w.length)]
      simp [add_comm]

/-- C9: `calculate_loss` is exactly the squared difference of the two
trailing outcome entries plus the dot product of the output vector's
leading entries with the elementwise logarithm of the target's leading
entries; when output equals target the outcome term is zero.  The
logarithm is abstracted as `lg` (the code applies `np.log`
elementwise). -/
theorem C9_loss_formula (lg : ℚ → ℚ) (game_output output : List ℚ)
    (hlen : game_output.length = output.length)
    (hpos : ∀ x ∈ game_output.dropLast, 0 < x)
    (game_outcome predicted_outcome : ℚ)
    (ht : game_output.getLast? = some game_outcome)
    (ho : output.getLast? = some predicted_outcome) :
    calculate_loss lg game_output output =
      Except.ok ((game_outcome - predicted_outcome) ^ 2
        + ∑ i ∈ Finset.range (output.length - 1),
            output.dropLast.getD i 0 * lg (game_output.dropLast.getD i 0)) ∧
    (output = game_output → (game_outcome - predicted_outcome) ^ 2 = 0) := by
  constructor
  · have hred : calculate_loss lg game_output output =
        Except.ok ((game_outcome - predicted_outcome) ^ 2
          + np_dot output.dropLast (game_output.dropLast.map lg)) := by
      simp [calculate_loss, ht, ho]
    rw [hred, np_dot_eq_sum]
    have hmin : min output.dropLast.length (game_output.dropLast.map lg).length
        = output.length - 1 := by
      simp [List.length_dropLast, hlen]
    rw [hmin]
    have hsum : ∑ i ∈ Finset.range (output.length - 1),
        output.dropLast.getD i 0 * (game_output.dropLast.map lg).getD i 0
      = ∑ i ∈ Finset.range (output.length - 1),
        output.dropLast.getD i 0 * lg (game_output.dropLast.getD i 0) := by
      refine Finset.sum_congr rfl fun i hi => ?_
      have h := Finset.mem_range.mp hi
      have hi' : i < game_output.dropLast.length := by
        rw [List.length_dropLast]
        omega
      congr 1
      rw [List.getD_eq_getElem?_getD, List.getElem?_map,
        List.getElem?_eq_getElem hi', List.getD_eq_getElem?_getD,
        List.getElem?_eq_getElem hi']
      rfl
    rw [hsum]
  · intro heq
    subst heq
    rw [ht] at ho
    cases ho
    ring

/-- C9 witness: target `[1/2, 1]` equal to output. -/
theorem C9_loss_formula_witness :
    calculate_loss id [1/2, 1] [1/2, 1] =
      Except.ok (((1:ℚ) - 1) ^ 2
        + ∑ i ∈ Finset.range (([1/2, (1:ℚ)].length) - 1),
            ([(1:ℚ)/2, 1].dropLast.getD i 0) * id (([(1:ℚ)/2, 1].dropLast.getD i 0))) ∧
    (([(1:ℚ)/2, 1] : List ℚ) = [1/2, 1] → (((1:ℚ) - 1) ^ 2 = 0)) :=
  C9_loss_formula id [1/2, 1] [1/2, 1] rfl (by norm_num) 1 1 (by rfl) (by rfl)

lemma fold_if_eq_fold_max (x : ℚ) (xs : List ℚ) :
    xs.foldl (fun a b => if b > a then b else a) x = xs.foldl max x := by
  have hfun : (fun a b : ℚ => if b > a then b else a) = fun a b : ℚ => max a b := by
    funext a b
    by_cases h : b > a
    · rw [if_pos h]
      exact (max_eq_right (le_of_lt h)).symm
    · rw [if_neg h]
      exact (max_eq_left (le_of_not_lt h)).symm
  rw [hfun]

lemma py_max_eq {l : List ℚ} {m : ℚ} (h : l.max? = some m) : py_max l = Except.ok m := by
  cases l with
  | nil => cases h
  | cons x xs =>
    have hx : (x :: xs).max? = some (xs.foldl max x) := rfl
    rw [hx] at h
    cases h
    simp [py_max, fold_if_eq_fold_max]

/-- C8: with the active Pokémon located at sorted index `i`, the decoder
attacks exactly when the maximum `M` of the four-wide move block starting
at `POKEMON_PARTY_LIMIT + i*POKEMON_MOVE_LIMIT` is at least the maximum
`S` of the first `POKEMON_PARTY_LIMIT` switch entries (attack preferred
on exact tie); attacking picks the move at the block's first argmax
index in the move bank's native order, switching passes the switch
segment's first argmax index to the switch callback. -/
theorem C8_decode_action_policy (output : List ℚ) (player : Player) (i : ℕ) (M S : ℚ)
    (hfind : (get_sorted_list player.party).findIdx
        (fun pokemon => pokemon.id = player.starting.id) = i)
    (hi : i < (get_sorted_list player.party).length)
    (hM : ((output.drop (POKEMON_PARTY_LIMIT + i * POKEMON_MOVE_LIMIT)).take
        POKEMON_MOVE_LIMIT).max? = some M)
    (hS : (output.take POKEMON_PARTY_LIMIT).max? = some S) :
    (S ≤ M → ∀ attack : Move,
      player.starting.moves[((output.drop (POKEMON_PARTY_LIMIT + i * POKEMON_MOVE_LIMIT)).take
        POKEMON_MOVE_LIMIT).findIdx (fun y => y = M)]? = some attack →
      predict_move output player = Except.ok (TurnAction.do_move attack)) ∧
    (M < S → predict_move output player =
      Except.ok (TurnAction.switch_pokemon
        ((output.take POKEMON_PARTY_LIMIT).findIdx (fun y => y = S)))) := by
  have hpm : predict_move output player =
      (py_max ((output.drop (POKEMON_PARTY_LIMIT + i * POKEMON_MOVE_LIMIT)).take
          POKEMON_MOVE_LIMIT)).bind fun highest_move_prob =>
        (py_max (output.take POKEMON_PARTY_LIMIT)).bind fun highest_switch_prob =>
        if highest_move_prob ≥ highest_switch_prob then
          if h : py_index ((output.drop (POKEMON_PARTY_LIMIT + i * POKEMON_MOVE_LIMIT)).take
              POKEMON_MOVE_LIMIT) highest_move_prob < player.starting.moves.length then
            Except.ok (TurnAction.do_move (player.starting.moves.get ⟨_, h⟩))
          else Except.error PyErr.indexError
        else
          Except.ok (TurnAction.switch_pokemon
            (py_index (output.take POKEMON_PARTY_LIMIT) highest_switch_prob)) := by
    rw [predict_move]
    rw [hfind]
    rw [if_pos hi]
  rw [hpm, py_max_eq hM, py_max_eq hS]
  constructor
  · intro hSM attack hattack
    obtain ⟨hlt, hget⟩ := List.getElem?_eq_some.mp hattack
    have hbind : ((Except.ok M : Except PyErr ℚ).bind fun highest_move_prob =>
        (Except.ok S : Except PyErr ℚ).bind fun highest_switch_prob =>
        if highest_move_prob ≥ highest_switch_prob then
          if h : py_index ((output.drop (POKEMON_PARTY_LIMIT + i * POKEMON_MOVE_LIMIT)).take
              POKEMON_MOVE_LIMIT) highest_move_prob < player.starting.moves.length then
            Except.ok (TurnAction.do_move (player.starting.moves.get ⟨_, h⟩))
          else Except.error PyErr.indexError
        else
          Except.ok (TurnAction.switch_pokemon
            (py_index (output.take POKEMON_PARTY_LIMIT) highest_switch_prob)))
        = if h : py_index ((output.drop (POKEMON_PARTY_LIMIT + i * POKEMON_MOVE_LIMIT)).take
              POKEMON_MOVE_LIMIT) M < player.starting.moves.length then
            Except.ok (TurnAction.do_move (player.starting.moves.get ⟨_, h⟩))
          else Except.error PyErr.indexError := by
      simp only [Except.bind]
      rw [if_pos hSM]
    rw [hbind]
    rw [dif_pos (show py_index _ M < player.starting.moves.length from hlt)]
    exact congrArg _ (congrArg _ hget)
  · intro hMS
    simp only [Except.bind]
    rw [if_neg (not_le.mpr hMS)]
    rfl

/-- C8 witness: single-Pokémon party, move block peaking at slot 0. -/
theorem C8_decode_action_policy_witness :
    predict_move c8_out exPlayer = Except.ok (TurnAction.do_move exMove) :=
  (C8_decode_action_policy c8_out exPlayer 0 1 0 (by decide) (by decide)
    (by decide) (by decide)).1 (by decide) exMove (by decide)

lemma switch_loop_char (root_outcome : ℚ) (h0 : root_outcome ≠ 0) :
    ∀ (children : List MonteCarloChild) (acc : List ℚ),
      (∀ c ∈ children, c.action_type = MonteCarloActionType.SWITCH → c.idx < acc.length) →
      ∃ res, switch_loop root_outcome children acc = Except.ok res ∧
        res.length = acc.length ∧
        ∀ j, res.getD j 0 =
          ((children.filter fun c =>
              decide (c.action_type = MonteCarloActionType.SWITCH)
                && decide (c.idx = j)).getLast?).elim
            (acc.getD j 0) (fun c => c.outcome / root_outcome) := by
  intro children
  induction children with
  | nil =>
    intro acc hidx
    exact ⟨acc, rfl, rfl, fun j => by simp⟩
  | cons c rest ih =>
    intro acc hidx
    by_cases hc : c.action_type = MonteCarloActionType.SWITCH
    · have hci : c.idx < acc.length := hidx c (List.mem_cons_self _ _) hc
      obtain ⟨res, hres, hlen, hchar⟩ := ih (acc.set c.idx (c.outcome / root_outcome))
        (fun c' hc' ha => by
          rw [List.length_set]
          exact hidx c' (List.mem_cons_of_mem _ hc') ha)
      refine ⟨res, ?_, by rw [hlen, List.length_set], ?_⟩
      · rw [switch_loop, if_pos hc, if_neg h0, if_pos hci]
        exact hres
      · intro j
        rw [hchar j]
        by_cases hj : c.idx = j
        · have hfc : ((c :: rest).filter fun x =>
              decide (x.action_type = MonteCarloActionType.SWITCH) && decide (x.idx = j))
              = c :: (rest.filter fun x =>
                decide (x.action_type = MonteCarloActionType.SWITCH) && decide (x.idx = j)) := by
            rw [List.filter_cons, if_pos (by simp [hc, hj])]
          rw [hfc]
          have hacc : (acc.set c.idx (c.outcome / root_outcome)).getD j 0
              = c.outcome / root_outcome := by
            rw [List.getD_eq_getElem?_getD, List.getElem?_set, if_pos hj, if_pos hci]
            rfl
          cases hfr : (rest.filter fun x =>
              decide (x.action_type = MonteCarloActionType.SWITCH) && decide (x.idx = j)) with
          | nil =>
            simp only [List.getLast?_nil, List.getLast?_singleton, Option.elim]
            exact hacc
          | cons b l =>
            rw [List.getLast?_cons_cons]
            cases hl : (b :: l).getLast? with
            | none => exact absurd hl (by simp)
            | some x => rfl
        · have hfc : ((c :: rest).filter fun x =>
              decide (x.action_type = MonteCarloActionType.SWITCH) && decide (x.idx = j))
              = rest.filter fun x =>
                decide (x.action_type = MonteCarloActionType.SWITCH) && decide (x.idx = j) := by
            rw [List.filter_cons, if_neg (by simp [hj])]
          rw [hfc]
          have hset : (acc.set c.idx (c.outcome / root_outcome)).getD j 0 = acc.getD j 0 := by
            rw [List.getD_eq_getElem?_getD, List.getElem?_set, if_neg hj,
              ← List.getD_eq_getElem?_getD]
          rw [hset]
    · obtain ⟨res, hres, hlen, hchar⟩ := ih acc
        (fun c' hc' ha => hidx c' (List.mem_cons_of_mem _ hc') ha)
      refine ⟨res, ?_, hlen, ?_⟩
      · rw [switch_loop, if_neg hc]
        exact hres
      · intro j
        rw [hchar j]
        have hfc : ((c :: rest).filter fun x =>
            decide (x.action_type = MonteCarloActionType.SWITCH) && decide (x.idx = j))
            = rest.filter fun x =>
              decide (x.action_type = MonteCarloActionType.SWITCH) && decide (x.idx = j) := by
          rw [List.filter_cons, if_neg (by simp [hc])]
        rw [hfc]

lemma attack_loop_ok (root_outcome : ℚ) (h0 : root_outcome ≠ 0) :
    ∀ (children : List MonteCarloChild) (acc : ℕ → Option (List ℚ)),
      (∀ key l, acc key = some l → l.length = POKEMON_MOVE_LIMIT) →
      (∀ c ∈ children, c.action_type = MonteCarloActionType.ATTACK →
        c.idx < POKEMON_MOVE_LIMIT) →
      ∃ m, attack_loop root_outcome children acc = Except.ok m ∧
        (∀ key, (m key).isSome ↔
          ((∃ c ∈ children, c.action_type = MonteCarloActionType.ATTACK ∧ c.pkmn_id = key)
            ∨ (acc key).isSome)) ∧
        (∀ key l, m key = some l → l.length = POKEMON_MOVE_LIMIT) := by
  intro children
  induction children with
  | nil =>
    intro acc hlen _
    refine ⟨acc, rfl, fun key => ?_, hlen⟩
    simp
  | cons c rest ih =>
    intro acc hlen hidx
    by_cases hc : c.action_type = MonteCarloActionType.ATTACK
    · have hci : c.idx < POKEMON_MOVE_LIMIT := hidx c (List.mem_cons_self _ _) hc
      have hcur : ((acc c.pkmn_id).getD
          (List.replicate POKEMON_MOVE_LIMIT EPSILON)).length = POKEMON_MOVE_LIMIT := by
        cases hacc : acc c.pkmn_id with
        | none => simp
        | some l => simpa using hlen c.pkmn_id l hacc
      obtain ⟨m, hm, hchar, hmlen⟩ := ih
        (fun k => if k = c.pkmn_id
          then some (((acc c.pkmn_id).getD (List.replicate POKEMON_MOVE_LIMIT EPSILON)).set
            c.idx (c.outcome / root_outcome))
          else acc k)
        (fun key l hkey => by
          dsimp only at hkey
          by_cases hk : key = c.pkmn_id
          · rw [if_pos hk] at hkey
            cases hkey
            rw [List.length_set]
            exact hcur
          · rw [if_neg hk] at hkey
            exact hlen key l hkey)
        (fun c' hc' ha => hidx c' (List.mem_cons_of_mem _ hc') ha)
      have hcond : c.idx <
          ((acc c.pkmn_id).getD (List.replicate POKEMON_MOVE_LIMIT EPSILON)).length := by
        rw [hcur]
        exact hci
      refine ⟨m, ?_, ?_, hmlen⟩
      · rw [attack_loop, if_pos hc, if_neg h0, if_pos hcond]
        exact hm
      · intro key
        rw [hchar key]
        by_cases hk : key = c.pkmn_id
        · subst hk
          simp [hc]
        · constructor
          · rintro (⟨c', hc', ha', hid'⟩ | hs)
            · exact Or.inl ⟨c', List.mem_cons_of_mem _ hc', ha', hid'⟩
            · rw [if_neg hk] at hs
              exact Or.inr hs
          · rintro (⟨c', hc', ha', hid'⟩ | hs)
            · rcases List.mem_cons.mp hc' with rfl | hc'
              · exact absurd hid'.symm hk
              · exact Or.inl ⟨c', hc', ha', hid'⟩
            · exact Or.inr (by rw [if_neg hk]; exact hs)
    · obtain ⟨m, hm, hchar, hmlen⟩ := ih acc hlen
        (fun c' hc' ha => hidx c' (List.mem_cons_of_mem _ hc') ha)
      refine ⟨m, ?_, ?_, hmlen⟩
      · rw [attack_loop, if_neg hc]
        exact hm
      · intro key
        rw [hchar key]
        constructor
        · rintro (⟨c', hc', ha', hid'⟩ | hs)
          · exact Or.inl ⟨c', List.mem_cons_of_mem _ hc', ha', hid'⟩
          · exact Or.inr hs
        · rintro (⟨c', hc', ha', hid'⟩ | hs)
          · rcases List.mem_cons.mp hc' with rfl | hc'
            · exact absurd ha' hc
            · exact Or.inl ⟨c', hc', ha', hid'⟩
          · exact Or.inr hs

lemma move_flatten_ok (move_map : ℕ → Option (List ℚ)) :
    ∀ (l : List Pokemon) (acc : List ℚ),
      (∀ p ∈ l, (move_map p.id).isSome) →
      ∃ res, move_flatten move_map l acc = Except.ok res := by
  intro l
  induction l with
  | nil => exact fun acc _ => ⟨acc, rfl⟩
  | cons p rest ih =>
    intro acc hsome
    obtain ⟨probs, hp⟩ := Option.isSome_iff_exists.mp (hsome p (List.mem_cons_self _ _))
    obtain ⟨res, hres⟩ := ih (acc ++ probs)
      (fun q hq => hsome q (List.mem_cons_of_mem _ hq))
    refine ⟨res, ?_⟩
    rw [move_flatten, hp]
    exact hres

lemma map_snd_sorted_tuples (probs : List ℚ) (party : List Pokemon)
    (hl : probs.length = party.length) :
    ((probs.zip party).insertionSort tupLe).map Prod.snd = get_sorted_list party := by
  rw [List.map_insertionSort tupLe pkmnLe Prod.snd (probs.zip party)
    (fun a _ b _ => Iff.rfl)]
  rw [List.map_snd_zip probs party (le_of_eq hl.symm)]
  rfl

lemma make_actual_output_ok (player : Player) (node : MonteCarloNode)
    (hplen : player.party.length ≤ POKEMON_PARTY_LIMIT)
    (hids : (player.party.map Pokemon.id).Nodup)
    (hout : node.outcome ≠ 0)
    (hsidx : ∀ c ∈ node.children, c.action_type = MonteCarloActionType.SWITCH →
      c.idx < player.party.length)
    (hmidx : ∀ c ∈ node.children, c.action_type = MonteCarloActionType.ATTACK →
      c.idx < POKEMON_MOVE_LIMIT)
    (hattack : ∀ p ∈ player.party, ∃ c ∈ node.children,
      c.action_type = MonteCarloActionType.ATTACK ∧ c.pkmn_id = p.id) :
    ∃ out, make_actual_output_list player node = Except.ok out ∧
      POKEMON_PARTY_LIMIT ≤ out.length ∧
      (∀ k, ∀ hk : k < (get_sorted_list player.party).length, ∀ i : ℕ,
        ∀ hi : i < player.party.length,
        (get_sorted_list player.party)[k] = player.party[i] →
        out.getD k 0 = lastSwitchVal node i) ∧
      (∀ k, (get_sorted_list player.party).length ≤ k → k < POKEMON_PARTY_LIMIT →
        out.getD k 0 = EPSILON) := by
  obtain ⟨probs, hprobs, hplen2, hpchar⟩ := switch_loop_char node.outcome hout node.children
    (List.replicate player.party.length EPSILON)
    (by
      intro c hc ha
      rw [List.length_replicate]
      exact hsidx c hc ha)
  rw [List.length_replicate] at hplen2
  obtain ⟨mm, hmm, hmmchar, hmmlen⟩ := attack_loop_ok node.outcome hout node.children
    (fun _ => none) (by intro key l h; cases h) hmidx
  obtain ⟨mp, hmp⟩ := move_flatten_ok mm (get_sorted_list player.party) []
    (by
      intro p hp
      rw [hmmchar p.id]
      exact Or.inl (hattack p (mem_get_sorted_list.mp hp)))
  have hsortlen : (get_sorted_list player.party).length = player.party.length :=
    length_get_sorted_list player.party
  have hrun : make_actual_output_list player node = Except.ok
      ((((probs.zip player.party).insertionSort tupLe).map Prod.fst
        ++ List.replicate (POKEMON_PARTY_LIMIT - player.party.length) EPSILON)
        ++ mp ++ [node.outcome]) := by
    rw [make_actual_output_list]
    rw [hprobs]
    simp only [Except.bind]
    rw [hmm]
    simp only [Except.bind]
    rw [hmp]
  have hsegtuplen : ((probs.zip player.party).insertionSort tupLe).length
      = player.party.length := by
    rw [List.length_insertionSort, List.length_zip, hplen2, min_self]
  have hmaplen : (((probs.zip player.party).insertionSort tupLe).map Prod.fst).length
      = player.party.length := by
    rw [List.length_map, hsegtuplen]
  have hseglen : (((probs.zip player.party).insertionSort tupLe).map Prod.fst
      ++ List.replicate (POKEMON_PARTY_LIMIT - player.party.length) EPSILON).length
      = POKEMON_PARTY_LIMIT := by
    rw [List.length_append, hmaplen, List.length_replicate]
    omega
  refine ⟨_, hrun, ?_, ?_, ?_⟩
  · rw [List.length_append, List.length_append, hseglen]
    omega
  · intro k hk i hi heq
    have hkp : k < player.party.length := by rw [← hsortlen]; exact hk
    have hsegget : ((((probs.zip player.party).insertionSort tupLe).map Prod.fst
        ++ List.replicate (POKEMON_PARTY_LIMIT - player.party.length) EPSILON)
        ++ mp ++ [node.outcome]).getD k 0
        = (((probs.zip player.party).insertionSort tupLe).map Prod.fst).getD k 0 := by
      rw [List.getD_eq_getElem?_getD, List.getD_eq_getElem?_getD]
      rw [List.getElem?_append, if_pos (by rw [List.length_append, hseglen]; omega)]
      rw [List.getElem?_append, if_pos (by rw [hseglen]; omega)]
      rw [List.getElem?_append, if_pos (by rw [hmaplen]; omega)]
    rw [hsegget]
    have hk3 : k < ((probs.zip player.party).insertionSort tupLe).length := by
      rw [hsegtuplen]
      exact hkp
    have hk4 : k < (((probs.zip player.party).insertionSort tupLe).map Prod.fst).length := by
      rw [hmaplen]
      exact hkp
    rw [List.getD_eq_getElem _ _ hk4, List.getElem_map]
    have hsnd := map_snd_sorted_tuples probs player.party hplen2
    have h2 : (((probs.zip player.party).insertionSort tupLe)[k]).2
        = (get_sorted_list player.party)[k] := by
      have hk5 : k < (((probs.zip player.party).insertionSort tupLe).map Prod.snd).length := by
        rw [List.length_map, hsegtuplen]
        exact hkp
      have := List.getElem_of_eq hsnd hk5
      rw [List.getElem_map] at this
      exact this
    have hmem : ((probs.zip player.party).insertionSort tupLe)[k] ∈ probs.zip player.party :=
      (List.mem_insertionSort tupLe).mp (List.getElem_mem hk3)
    obtain ⟨m, hm, hzm⟩ := List.mem_iff_getElem.mp hmem
    have hmn : m < player.party.length := by
      rw [List.length_zip, hplen2, min_self] at hm
      exact hm
    have hmp2 : m < probs.length := by rw [hplen2]; exact hmn
    have hzm2 : (probs[m], player.party[m]) = ((probs.zip player.party).insertionSort tupLe)[k] := by
      rw [← List.getElem_zip (h := hm)]
      exact hzm
    have hpartym : player.party[m] = player.party[i] := by
      have := congrArg Prod.snd hzm2
      simp only at this
      rw [this, h2, heq]
    have hnod : player.party.Nodup := List.Nodup.of_map _ hids
    have hmi : m = i := (hnod.getElem_inj_iff).mp hpartym
    have hfst : (((probs.zip player.party).insertionSort tupLe)[k]).1 = probs[m] := by
      have := congrArg Prod.fst hzm2
      simp only at this
      rw [← this]
    rw [hfst]
    subst hmi
    have hprobsm : probs[m] = probs.getD m 0 := (List.getD_eq_getElem _ _ hmp2).symm
    rw [hprobsm, hpchar m, lastSwitchVal]
    cases hopt : (node.children.filter fun c =>
        decide (c.action_type = MonteCarloActionType.SWITCH) && decide (c.idx = m)).getLast? with
    | none =>
      simp only [Option.elim]
      rw [List.getD_eq_getElem?_getD, List.getElem?_replicate, if_pos hmn]
      rfl
    | some c => rfl
  · intro k hks hk6
    have hkp : player.party.length ≤ k := by rw [← hsortlen]; exact hks
    rw [List.getD_eq_getElem?_getD]
    rw [List.getElem?_append, if_pos (by rw [List.length_append, hseglen]; omega)]
    rw [List.getElem?_append, if_pos (by rw [hseglen]; omega)]
    rw [List.getElem?_append, if_neg (by rw [hmaplen]; omega)]
    rw [List.getElem?_replicate, if_pos (by rw [hmaplen]; omega)]
    rfl

lemma eq_singleton_of_mem_of_length_le_one {α : Type _} {l : List α} {a : α}
    (hmem : a ∈ l) (hlen : l.length ≤ 1) : l = [a] := by
  cases l with
  | nil => cases hmem
  | cons x t =>
    cases t with
    | nil =>
      have := List.mem_singleton.mp hmem
      rw [this]
    | cons y t2 => simp at hlen

lemma length_filter_idx_le_one_of_nodup (l : List MonteCarloChild) (i : ℕ)
    (hnod : (l.map MonteCarloChild.idx).Nodup) :
    (l.filter fun c => decide (c.idx = i)).length ≤ 1 := by
  induction l with
  | nil => simp
  | cons a t ih =>
    rw [List.map_cons, List.nodup_cons] at hnod
    rw [List.filter_cons]
    by_cases ha : a.idx = i
    · rw [if_pos (by simp [ha])]
      have hnil : t.filter (fun c => decide (c.idx = i)) = [] := by
        rw [List.eq_nil_iff_forall_not_mem]
        intro c hc
        obtain ⟨hct, hci⟩ := List.mem_filter.mp hc
        have hci2 : c.idx = i := by simpa using hci
        exact hnod.1 (by
          rw [ha, ← hci2]
          exact List.mem_map_of_mem _ hct)
      rw [hnil]
      simp
    · rw [if_neg (by simp [ha])]
      exact ih hnod.2

lemma switch_filter_length_le_one (children : List MonteCarloChild) (i : ℕ)
    (hdup : ((children.filter fun c =>
        decide (c.action_type = MonteCarloActionType.SWITCH)).map MonteCarloChild.idx).Nodup) :
    (children.filter fun c =>
      decide (c.action_type = MonteCarloActionType.SWITCH) && decide (c.idx = i)).length ≤ 1 := by
  have heq : (children.filter fun c =>
      decide (c.action_type = MonteCarloActionType.SWITCH) && decide (c.idx = i))
      = (children.filter fun c =>
          decide (c.action_type = MonteCarloActionType.SWITCH)).filter
        (fun c => decide (c.idx = i)) := by
    rw [List.filter_filter]
    exact List.filter_congr (fun a _ => (Bool.and_comm _ _).symm)
  rw [heq]
  exact length_filter_idx_le_one_of_nodup _ i hdup

lemma lastSwitchVal_perm (node : MonteCarloNode) (children' : List MonteCarloChild)
    (hperm : children'.Perm node.children)
    (hdup : ((node.children.filter fun c =>
        decide (c.action_type = MonteCarloActionType.SWITCH)).map MonteCarloChild.idx).Nodup)
    (i : ℕ) :
    lastSwitchVal ⟨node.outcome, children'⟩ i = lastSwitchVal node i := by
  rw [lastSwitchVal, lastSwitchVal]
  have hperm2 : (children'.filter fun c =>
      decide (c.action_type = MonteCarloActionType.SWITCH) && decide (c.idx = i)).Perm
      (node.children.filter fun c =>
        decide (c.action_type = MonteCarloActionType.SWITCH) && decide (c.idx = i)) :=
    hperm.filter _
  have hle := switch_filter_length_le_one node.children i hdup
  rcases hF : node.children.filter (fun c =>
      decide (c.action_type = MonteCarloActionType.SWITCH) && decide (c.idx = i))
    with - | ⟨a, - | ⟨b, t2⟩⟩
  · rw [hF] at hperm2
    have h2 : children'.filter (fun c =>
        decide (c.action_type = MonteCarloActionType.SWITCH) && decide (c.idx = i)) = [] :=
      List.perm_nil.mp hperm2
    rw [h2, hF]
  · rw [hF] at hperm2
    have h2 : children'.filter (fun c =>
        decide (c.action_type = MonteCarloActionType.SWITCH) && decide (c.idx = i)) = [a] :=
      List.perm_singleton.mp hperm2
    rw [h2, hF]
  · rw [hF] at hle
    simp at hle

/-- C2: under the well-formedness conditions of the data model (party
within the configured bound, unique Pokémon identifiers, nonzero root
outcome, SWITCH children targeting live as-is party slots with no two
SWITCH children sharing a slot, ATTACK children naming live move slots
and every party member owning at least one ATTACK child so that the call
returns at all), the switch segment of `make_actual_output_list` places
`child.outcome / root.outcome` of each SWITCH child targeting as-is slot
`i` at the sorted-by-identifier position of the Pokémon at as-is index
`i`, fills every other slot of the `POKEMON_PARTY_LIMIT`-wide segment
with `EPSILON`, and is invariant under permutation of the root's child
list. -/
theorem C2_switch_segment_alignment (player : Player) (node : MonteCarloNode)
    (hplen : player.party.length ≤ POKEMON_PARTY_LIMIT)
    (hids : (player.party.map Pokemon.id).Nodup)
    (hout : node.outcome ≠ 0)
    (hsidx : ∀ c ∈ node.children, c.action_type = MonteCarloActionType.SWITCH →
      c.idx < player.party.length)
    (hdup : ((node.children.filter fun c =>
        decide (c.action_type = MonteCarloActionType.SWITCH)).map MonteCarloChild.idx).Nodup)
    (hmidx : ∀ c ∈ node.children, c.action_type = MonteCarloActionType.ATTACK →
      c.idx < POKEMON_MOVE_LIMIT)
    (hattack : ∀ p ∈ player.party, ∃ c ∈ node.children,
      c.action_type = MonteCarloActionType.ATTACK ∧ c.pkmn_id = p.id) :
    ∃ out, make_actual_output_list player node = Except.ok out ∧
      (∀ c ∈ node.children, c.action_type = MonteCarloActionType.SWITCH →
        ∀ k, ∀ hk : k < (get_sorted_list player.party).length,
        ∀ hci : c.idx < player.party.length,
        (get_sorted_list player.party)[k] = player.party[c.idx] →
        out.getD k 0 = c.outcome / node.outcome) ∧
      (∀ k, k < POKEMON_PARTY_LIMIT →
        (∀ c ∈ node.children, c.action_type = MonteCarloActionType.SWITCH →
          ∀ hk : k < (get_sorted_list player.party).length,
          ∀ hci : c.idx < player.party.length,
          (get_sorted_list player.party)[k] ≠ player.party[c.idx]) →
        out.getD k 0 = EPSILON) ∧
      (∀ children', children'.Perm node.children →
        ∃ out', make_actual_output_list player ⟨node.outcome, children'⟩ = Except.ok out' ∧
          out'.take POKEMON_PARTY_LIMIT = out.take POKEMON_PARTY_LIMIT) := by
  obtain ⟨out, hrun, h6, hchar, hpad⟩ :=
    make_actual_output_ok player node hplen hids hout hsidx hmidx hattack
  have hsortlen : (get_sorted_list player.party).length = player.party.length :=
    length_get_sorted_list player.party
  refine ⟨out, hrun, ?_, ?_, ?_⟩
  · intro c hc hcs k hk hci heq
    rw [hchar k hk c.idx hci heq, lastSwitchVal]
    have hcmem : c ∈ node.children.filter fun x =>
        decide (x.action_type = MonteCarloActionType.SWITCH) && decide (x.idx = c.idx) :=
      List.mem_filter.mpr ⟨hc, by simp [hcs]⟩
    have hsingle := eq_singleton_of_mem_of_length_le_one hcmem
      (switch_filter_length_le_one node.children c.idx hdup)
    rw [hsingle]
    rfl
  · intro k hk6 hno
    by_cases hk : k < (get_sorted_list player.party).length
    · have hkp : k < player.party.length := by rw [← hsortlen]; exact hk
      obtain ⟨i, hi, hieq⟩ := List.mem_iff_getElem.mp
        (mem_get_sorted_list.mp (List.getElem_mem hk))
      rw [hchar k hk i hi hieq.symm, lastSwitchVal]
      have hnil : (node.children.filter fun x =>
          decide (x.action_type = MonteCarloActionType.SWITCH) && decide (x.idx = i)) = [] := by
        rw [List.eq_nil_iff_forall_not_mem]
        intro c hcmem
        obtain ⟨hcin, hcp⟩ := List.mem_filter.mp hcmem
        simp only [Bool.and_eq_true, decide_eq_true_eq] at hcp
        obtain ⟨hcs, hcidx⟩ := hcp
        subst hcidx
        exact hno c hcin hcs hk hi hieq.symm
      rw [hnil]
      rfl
    · exact hpad k (le_of_not_lt hk) hk6
  · intro children' hperm
    obtain ⟨out', hrun', h6', hchar', hpad'⟩ :=
      make_actual_output_ok player ⟨node.outcome, children'⟩ hplen hids hout
        (fun c hc ha => hsidx c (hperm.mem_iff.mp hc) ha)
        (fun c hc ha => hmidx c (hperm.mem_iff.mp hc) ha)
        (fun p hp => by
          obtain ⟨c, hc, ha, hid⟩ := hattack p hp
          exact ⟨c, hperm.mem_iff.mpr hc, ha, hid⟩)
    refine ⟨out', hrun', ?_⟩
    apply List.ext_getElem
    · rw [List.length_take, List.length_take]
      omega
    · intro k h1 h2
      have hk6 : k < POKEMON_PARTY_LIMIT := by
        rw [List.length_take] at h1
        omega
    -- reduce take-getElem to getD
      have hko : k < out.length := by omega
      have hko' : k < out'.length := by
        rw [List.length_take] at h1
        omega
      rw [List.getElem_take, List.getElem_take]
      rw [← List.getD_eq_getElem out' 0 hko', ← List.getD_eq_getElem out 0 hko]
      by_cases hk : k < (get_sorted_list player.party).length
      · have hkp : k < player.party.length := by rw [← hsortlen]; exact hk
        obtain ⟨i, hi, hieq⟩ := List.mem_iff_getElem.mp
          (mem_get_sorted_list.mp (List.getElem_mem hk))
        rw [hchar' k hk i hi hieq.symm, hchar k hk i hi hieq.symm]
        exact lastSwitchVal_perm node children' hperm hdup i
      · rw [hpad' k (le_of_not_lt hk) hk6, hpad k (le_of_not_lt hk) hk6]

/-- C2 witness: two-Pokémon party in reverse identifier order with one
SWITCH child and one ATTACK child per member. -/
theorem C2_switch_segment_alignment_witness :
    ∃ out, make_actual_output_list w2_player w2_node = Except.ok out ∧
      (∀ c ∈ w2_node.children, c.action_type = MonteCarloActionType.SWITCH →
        ∀ k, ∀ hk : k < (get_sorted_list w2_player.party).length,
        ∀ hci : c.idx < w2_player.party.length,
        (get_sorted_list w2_player.party)[k] = w2_player.party[c.idx] →
        out.getD k 0 = c.outcome / w2_node.outcome) ∧
      (∀ k, k < POKEMON_PARTY_LIMIT →
        (∀ c ∈ w2_node.children, c.action_type = MonteCarloActionType.SWITCH →
          ∀ hk : k < (get_sorted_list w2_player.party).length,
          ∀ hci : c.idx < w2_player.party.length,
          (get_sorted_list w2_player.party)[k] ≠ w2_player.party[c.idx]) →
        out.getD k 0 = EPSILON) ∧
      (∀ children', children'.Perm w2_node.children →
        ∃ out', make_actual_output_list w2_player ⟨w2_node.outcome, children'⟩ = Except.ok out' ∧
          out'.take POKEMON_PARTY_LIMIT = out.take POKEMON_PARTY_LIMIT) :=
  C2_switch_segment_alignment w2_player w2_node (by decide) (by decide) (by decide)
    (by decide) (by decide) (by decide) (by decide)

end PorygonPredictor